import Mathlib

/-!
Verification of the core matcher of the fancy-regex crate (`src/lib.rs`,
`src/error.rs`, `tests/captures.rs`) against its specification.

The embedding follows the source closely:
* pattern strings are `List Char`, input texts are `List Nat` (UTF-8 bytes),
  machine integers are `Nat` with `usizeMax` for `usize::MAX`;
* fallible Rust functions return `Except`; a Rust panic (out-of-bounds index,
  `panic!`) is modelled by `Except.error ()` or `Option.none` as noted per
  definition;
* the parts of the crate that are not among the given sources (the parser,
  analyzer, compiler and backtracking VM, and the external linear-time
  `regex` crate) are modelled abstractly from the specification, as noted in
  their doc comments.
-/

namespace FancyRegex

/-- usize::MAX on a 64-bit target, the sentinel for an unset save slot. -/
def usizeMax : Nat := 2 ^ 64 - 1

/-- DEFAULT_SIZE_LIMIT (src/lib.rs line 108): 10 * (1 shl 20). -/
def DEFAULT_SIZE_LIMIT : Nat := 10 * 2 ^ 20

/-- LookAround kinds (src/lib.rs lines 635-641). -/
inductive LookAroundKind where
  | LookAhead
  | LookAheadNeg
  | LookBehind
  | LookBehindNeg
deriving DecidableEq, Repr

/-- The AST type Expr (src/lib.rs lines 602-633). -/
inductive Expr where
  | Empty
  | Any (newline : Bool)
  | StartText
  | EndText
  | StartLine
  | EndLine
  | Literal (val : List Char) (casei : Bool)
  | Concat (children : List Expr)
  | Alt (children : List Expr)
  | Group (child : Expr)
  | LookAround (child : Expr) (kind : LookAroundKind)
  | Repeat (child : Expr) (lo : Nat) (hi : Nat) (greedy : Bool)
  | Delegate (inner : List Char) (size : Nat) (casei : Bool)
  | Backref (group : Nat)
  | AtomicGroup (child : Expr)

/-- push_usize (src/lib.rs lines 645-652): decimal digits of x appended to the buffer. -/
def pushUsize (x : Nat) : List Char :=
  if x ≥ 10 then pushUsize (x / 10) ++ [Char.ofNat (48 + x % 10)]
  else [Char.ofNat (48 + x)]
decreasing_by
  exact Nat.div_lt_self (by omega) (by omega)

/-- push_quoted (src/lib.rs lines 654-663): escape regex metacharacters with a backslash. -/
def pushQuoted (s : List Char) : List Char :=
  (s.map fun c =>
    if c = '\\' ∨ c = '.' ∨ c = '+' ∨ c = '*' ∨ c = '?' ∨ c = '(' ∨ c = ')' ∨ c = '|'
        ∨ c = '[' ∨ c = ']' ∨ c = '\x7b' ∨ c = '\x7d' ∨ c = '^' ∨ c = '$' ∨ c = '#'
    then ['\\', c] else [c]).flatten

/-- The is_empty closure used by to_str in the Alt case (src/lib.rs lines 703-706). -/
def isEmptyExpr : Expr → Bool
  | .Empty => true
  | _ => false

theorem sizeOf_filter_le (p : Expr → Bool) (l : List Expr) :
    sizeOf (l.filter p) ≤ sizeOf l := by
  induction l with
  | nil => simp
  | cons a t ih =>
    simp only [List.filter]
    cases p a <;> simp <;> omega

mutual

/-- Expr::to_str (src/lib.rs lines 670-769).  The result is `none` exactly when
the Rust function panics ("attempting to format hard expr", the catch-all arm
for Backref, LookAround and AtomicGroup); otherwise it is the string pushed
onto the buffer. -/
def Expr.to_str : Expr → Nat → Option (List Char)
  | .Empty, _ => some []
  | .Any newline, _ => some (if newline then "(?s:.)".toList else ".".toList)
  | .Literal val casei, _ =>
      some ((if casei then "(?i:".toList else []) ++ pushQuoted val ++
        (if casei then ")".toList else []))
  | .StartText, _ => some ['^']
  | .EndText, _ => some ['$']
  | .StartLine, _ => some "(?m:^)".toList
  | .EndLine, _ => some "(?m:$)".toList
  | .Concat children, precedence =>
      (toStrList children 2).map fun parts =>
        (if precedence > 1 then "(?:".toList else []) ++ parts.flatten ++
        (if precedence > 1 then [')'] else [])
  | .Alt children, precedence =>
      let contains_empty := children.any isEmptyExpr
      (toStrList (children.filter fun c => !isEmptyExpr c) 1).map fun parts =>
        (if precedence > 0 then "(?:".toList else []) ++
        (if contains_empty then "(?:".toList else []) ++
        (List.intersperse "|".toList parts).flatten ++
        (if contains_empty then ")?".toList else []) ++
        (if precedence > 0 then [')'] else [])
  | .Group child, _ =>
      (Expr.to_str child 0).map fun s => ['('] ++ s ++ [')']
  | .Repeat child lo hi greedy, precedence =>
      (Expr.to_str child 3).map fun s =>
        (if precedence > 2 then "(?:".toList else []) ++ s ++
        ['\x7b'] ++ pushUsize lo ++ [','] ++
        (if hi ≠ usizeMax then pushUsize hi else []) ++ ['\x7d'] ++
        (if !greedy then ['?'] else []) ++
        (if precedence > 2 then [')'] else [])
  | .Delegate inner _ casei, _ =>
      some ((if casei then "(?i:".toList else []) ++ inner ++
        (if casei then ")".toList else []))
  | .LookAround _ _, _ => none
  | .Backref _, _ => none
  | .AtomicGroup _, _ => none
termination_by e _ => sizeOf e
decreasing_by
  all_goals simp_wf
  all_goals try omega
  · have h := sizeOf_filter_le (fun c => !isEmptyExpr c) children
    omega

/-- Serialization of a list of children at a fixed precedence; `none` as soon
as one child panics (the Rust code would have panicked during the loop). -/
def toStrList : List Expr → Nat → Option (List (List Char))
  | [], _ => some []
  | c :: rest, precedence =>
      match Expr.to_str c precedence, toStrList rest precedence with
      | some s, some ss => some (s :: ss)
      | _, _ => none
termination_by l _ => sizeOf l
decreasing_by
  all_goals simp_wf <;> omega

end

mutual

/-- An expression built only from the constructors Empty, Any, StartText,
EndText, StartLine, EndLine, Literal, Concat, Alt, Group, Repeat and
Delegate, i.e. containing no Backref, LookAround or AtomicGroup node. -/
def Expr.noHard : Expr → Bool
  | .Backref _ => false
  | .LookAround _ _ => false
  | .AtomicGroup _ => false
  | .Group child => Expr.noHard child
  | .Repeat child _ _ _ => Expr.noHard child
  | .Concat children => noHardList children
  | .Alt children => noHardList children
  | _ => true

def noHardList : List Expr → Bool
  | [] => true
  | c :: rest => Expr.noHard c && noHardList rest

end

/-- The error type of the external regex crate, kept abstract (only wrapped
verbatim by InnerError, never inspected). -/
inductive RegexCrateError where
  | mk (msg : List Char)
deriving DecidableEq, Repr

/-- The crate's public Error enum as defined in src/lib.rs lines 112-133 (the
enum the crate's `Result` alias on line 106 uses; src/error.rs is not declared
as a module by lib.rs). -/
inductive Error where
  | ParseError
  | UnclosedOpenParen
  | InvalidRepeat
  | RecursionExceeded
  | LookBehindNotConst
  | TrailingBackslash
  | InvalidEscape
  | UnclosedUnicodeName
  | InvalidHex
  | InvalidCodepointValue
  | InvalidClass
  | UnknownFlag
  | NonUnicodeUnsupported
  | InvalidBackref
  | InnerError (e : RegexCrateError)
  | StackOverflow
deriving DecidableEq, Repr

/-- The variants placed under the `Run time errors` comment of the enum in
src/lib.rs (lines 131-132): only StackOverflow. -/
def Error.isRuntime : Error → Bool
  | .StackOverflow => true
  | _ => false

namespace ErrorsRs

/-- The separate Error enum of src/error.rs lines 7-53 (not reachable from
lib.rs, which never declares `mod error`).  `Nonexhaustive` stands for the
hidden `__Nonexhaustive` variant. -/
inductive Error where
  | ParseError
  | UnclosedOpenParen
  | InvalidRepeat
  | RecursionExceeded
  | LookBehindNotConst
  | TrailingBackslash
  | InvalidEscape
  | UnclosedUnicodeName
  | InvalidHex
  | InvalidCodepointValue
  | InvalidClass
  | UnknownFlag
  | NonUnicodeUnsupported
  | InvalidBackref
  | InnerError (e : RegexCrateError)
  | StackOverflow
  | BacktrackLimitExceeded
  | Nonexhaustive
deriving DecidableEq, Repr

/-- The variants placed under the `Run time errors` comment in src/error.rs
(lines 41-47): StackOverflow and BacktrackLimitExceeded. -/
def Error.isRuntime : Error → Bool
  | .StackOverflow => true
  | .BacktrackLimitExceeded => true
  | _ => false

end ErrorsRs

/-- Match (src/lib.rs lines 161-167): a half-open byte range into the text. -/
structure Match where
  text : List Nat
  start : Nat
  «end» : Nat
deriving DecidableEq, Repr

/-- Match::new (src/lib.rs lines 530-532). -/
def Match.new (text : List Nat) (start «end» : Nat) : Match :=
  { text := text, start := start, «end» := «end» }

/-- Captures (src/lib.rs lines 169-184).  The regex crate's `regex::Captures`
held by the Wrap variant is modelled as the list of optional (start, end)
spans it reports, group by group, relative to the slice that was searched. -/
inductive Captures where
  | Wrap (text : List Nat) (inner : List (Option (Nat × Nat)))
      (offset : Nat) (enclosing_groups : Nat)
  | Impl (text : List Nat) (saves : List Nat)
deriving DecidableEq, Repr

/-- Captures::get (src/lib.rs lines 536-564).  `Except.error ()` models the
Rust panic from indexing `saves` out of bounds; `regex::Captures::get` on the
Wrap variant returns None for any group index at or past the group count,
modelled by `List.getD _ none`. -/
def Captures.get : Captures → Nat → Except Unit (Option Match)
  | .Wrap text inner offset enclosing_groups, i =>
      .ok ((inner.getD (i + enclosing_groups) none).map fun m =>
        { text := text, start := m.1 + offset, «end» := m.2 + offset })
  | .Impl text saves, i =>
      if i ≥ saves.length then .ok none
      else match saves[i * 2]? with
        | none => .error ()
        | some lo =>
          if lo = usizeMax then .ok none
          else match saves[i * 2 + 1]? with
            | none => .error ()
            | some hi => .ok (some { text := text, start := lo, «end» := hi })

/-- Captures::len (src/lib.rs lines 570-579). -/
def Captures.len : Captures → Nat
  | .Wrap _ inner _ enclosing_groups => inner.length - enclosing_groups
  | .Impl _ saves => saves.length / 2

/-- Modelled from the spec: the linear-time engine collaborator (the external
regex crate compiled via compile::compile_inner_with_size_limit; src/compile.rs
is not among the sources).  A compiled linear-engine regex is a black box
that, searching a UTF-8 text, either reports no match or the captures of the
first match: one optional (start, end) byte span per group, group 0 being the
whole match, offsets relative to the searched slice.  Its is_match and find
operations are the projections of captures the crate documents. -/
structure RRegex where
  rcaptures : List Nat → Option (List (Option (Nat × Nat)))

/-- regex::Regex::is_match: whether a first match exists. -/
def RRegex.ris_match (r : RRegex) (t : List Nat) : Bool :=
  (r.rcaptures t).isSome

/-- regex::Regex::find: the span of group 0 of the first match. -/
def RRegex.rfind (r : RRegex) (t : List Nat) : Option (Nat × Nat) :=
  (r.rcaptures t).bind fun g => g.getD 0 none

/-- The regex crate's contract that whenever a match is reported, group 0 (the
whole match) is present in the captures. -/
def RRegex.group0Ok (r : RRegex) : Prop :=
  ∀ t g, r.rcaptures t = some g → (g.getD 0 none).isSome = true

/-- Modelled from the spec: the backtracking VM (src/vm.rs is not among the
sources).  vm::run is a deterministic function of the compiled program, the
input text, the start position and an options word, returning a run-time
error, no match, or the save slots of the match (for group g, saves[2g] is
the start and saves[2g+1] the end; usizeMax means unset). -/
structure Prog where
  run : List Nat → Nat → Nat → Except Error (Option (List Nat))

/-- Regex (src/lib.rs lines 135-147): the dispatcher holds either a wrapped
linear-engine pair (easy path) or a compiled VM program (hard path). -/
inductive Regex where
  | Wrap (inner : RRegex) (inner1 : Option RRegex) (original : List Char)
  | Impl (prog : Prog) (n_groups : Nat) (original : List Char)

/-- prev_codepoint_ix (src/lib.rs lines 772-783): step back from ix until the
byte there is not a UTF-8 continuation byte ((b as i8) >= -0x40, i.e.
b < 0x80 or b >= 0xc0).  The source's precondition is ix > 0; the ix = 0 case
is unreachable from the call site. -/
def prevCodepointIx (s : List Nat) : Nat → Nat
  | 0 => 0
  | ix + 1 => if s.getD ix 0 < 0x80 ∨ 0xc0 ≤ s.getD ix 0 then ix else prevCodepointIx s ix

/-- A UTF-8 continuation byte: in the range 0x80..0xc0. -/
def contByte (b : Nat) : Bool := 128 ≤ b && b < 192

/-- The framing property of a valid UTF-8 code-point encoding that
prev_codepoint_ix relies on: a nonempty run of bytes whose first byte is not
a continuation byte and whose remaining bytes all are.  A valid text is a
flattened list of such runs. -/
def validCharBytes : List Nat → Bool
  | [] => false
  | b :: rest => !contByte b && rest.all contByte

/-- codepoint_len (src/lib.rs lines 785-792). -/
def codepointLen (b : Nat) : Nat :=
  if b < 0x80 then 1
  else if b < 0xe0 then 2
  else if b < 0xf0 then 3
  else 4

/-- Regex::is_match (src/lib.rs lines 281-289). -/
def Regex.is_match (re : Regex) (text : List Nat) : Except Error Bool :=
  match re with
  | .Wrap inner _ _ => .ok (inner.ris_match text)
  | .Impl prog _ _ => (prog.run text 0 0).map Option.isSome

/-- Regex::find (src/lib.rs lines 306-316).  The indexing saves[0], saves[1]
relies on the VM invariant that a reported match carries at least the group-0
slot pair; it is modelled with getD. -/
def Regex.find (re : Regex) (text : List Nat) : Except Error (Option Match) :=
  match re with
  | .Wrap inner _ _ =>
      .ok ((inner.rfind text).map fun m => Match.new text m.1 m.2)
  | .Impl prog _ _ =>
      (prog.run text 0 0).map (Option.map fun saves =>
        Match.new text (saves.getD 0 0) (saves.getD 1 0))

/-- Regex::captures (src/lib.rs lines 338-359).  Vec::truncate is List.take. -/
def Regex.captures (re : Regex) (text : List Nat) : Except Error (Option Captures) :=
  match re with
  | .Wrap inner _ _ =>
      .ok ((inner.rcaptures text).map fun caps => Captures.Wrap text caps 0 0)
  | .Impl prog n_groups _ =>
      (prog.run text 0 0).map (Option.map fun saves =>
        Captures.Impl text (saves.take (n_groups * 2)))

/-- Regex::captures_from_pos (src/lib.rs lines 395-433).  The first arm is the
`inner1` branch taken when inner1 is present and pos != 0; the second arm is
the branch guarded by `inner1.is_none() || pos == 0`.  Slicing text[ix..] is
List.drop ix. -/
def Regex.captures_from_pos (re : Regex) (text : List Nat) (pos : Nat) :
    Except Error (Option Captures) :=
  match re with
  | .Wrap inner inner1 _ =>
      match inner1, pos with
      | some r1, p + 1 =>
          let ix := prevCodepointIx text (p + 1)
          .ok ((r1.rcaptures (text.drop ix)).map fun caps =>
            Captures.Wrap text caps ix 1)
      | _, _ =>
          .ok ((inner.rcaptures (text.drop pos)).map fun caps =>
            Captures.Wrap text caps pos 0)
  | .Impl prog n_groups _ =>
      (prog.run text pos 0).map (Option.map fun saves =>
        Captures.Impl text (saves.take (n_groups * 2)))

/-- RegexBuilder (src/lib.rs lines 149-159). -/
structure RegexBuilder where
  pattern : List Char
  case_insensitive : Bool
  multi_line : Bool
  dot_matches_new_line : Bool
  unicode : Bool
  has_flags : Bool
  size_limit : Nat
deriving DecidableEq, Repr

/-- RegexBuilder::new (src/lib.rs lines 445-455). -/
def RegexBuilder.new (pattern : List Char) : RegexBuilder :=
  { pattern := pattern
    case_insensitive := false
    multi_line := false
    dot_matches_new_line := false
    unicode := false
    has_flags := false
    size_limit := DEFAULT_SIZE_LIMIT }

/-- RegexBuilder::case_insensitive (src/lib.rs lines 457-463): stores the
value and, only when the value is true, raises has_flags. -/
def RegexBuilder.set_case_insensitive (b : RegexBuilder) (value : Bool) : RegexBuilder :=
  { b with case_insensitive := value
           has_flags := if value then true else b.has_flags }

/-- RegexBuilder::multi_line (src/lib.rs lines 465-471). -/
def RegexBuilder.set_multi_line (b : RegexBuilder) (value : Bool) : RegexBuilder :=
  { b with multi_line := value
           has_flags := if value then true else b.has_flags }

/-- RegexBuilder::dot_matches_new_line (src/lib.rs lines 473-479). -/
def RegexBuilder.set_dot_matches_new_line (b : RegexBuilder) (value : Bool) : RegexBuilder :=
  { b with dot_matches_new_line := value
           has_flags := if value then true else b.has_flags }

/-- RegexBuilder::unicode (src/lib.rs lines 481-487). -/
def RegexBuilder.set_unicode (b : RegexBuilder) (value : Bool) : RegexBuilder :=
  { b with unicode := value
           has_flags := if value then true else b.has_flags }

/-- The flags string built by RegexBuilder::build (src/lib.rs lines 496-502):
the concatenation, in this order, of i, m, s, u for each flag that is true. -/
def RegexBuilder.flagsStr (b : RegexBuilder) : List Char :=
  (if b.case_insensitive then ['i'] else []) ++
  (if b.multi_line then ['m'] else []) ++
  (if b.dot_matches_new_line then ['s'] else []) ++
  (if b.unicode then ['u'] else [])

/-- The pattern RegexBuilder::build (src/lib.rs lines 494-508) hands to
Regex::new_with_size_limit: rewritten to (?flags)pattern when has_flags is
set, the stored pattern unchanged otherwise. -/
def RegexBuilder.buildPattern (b : RegexBuilder) : List Char :=
  if b.has_flags then "(?".toList ++ b.flagsStr ++ ")".toList ++ b.pattern
  else b.pattern

/-- The easy-path construction of Regex::new_with_size_limit (src/lib.rs lines
224-250), taken when the parsed inner expression is not hard: re_cooked is the
serialization of the parsed expression raw_e at precedence 0, the pattern
handed to compile_inner for `inner` is re_cooked itself, and, when the inner
expression looks left, the pattern for `inner1` is
"^(?s:.)+?(" ++ re_cooked ++ ")" (line 240).  The result pairs the two
pattern strings handed to the linear-engine compiler; `none` would mean
to_str panicked (impossible for a non-hard expression). -/
def newEasyPats (raw_e : Expr) (looks_left : Bool) :
    Option (List Char × Option (List Char)) :=
  (Expr.to_str raw_e 0).map fun re_cooked =>
    (re_cooked,
     if looks_left then some ("^(?s:.)+?(".toList ++ re_cooked ++ [')']) else none)

/-- Modelled from the spec: the claimed easy-path wrapper pattern
"(?s:.)*?(original)" of section 4.3, stated for comparison with what the
source actually hands to the linear engine. -/
def wrapSpecPattern (re_cooked : List Char) : List Char :=
  "(?s:.)*?(".toList ++ re_cooked ++ [')']

/-- Well-formedness of the linear engines held by a Wrap regex: the regex
crate's contract that group 0 is present whenever captures are reported. -/
def Regex.wf : Regex → Prop
  | .Wrap inner _ _ => inner.group0Ok
  | .Impl _ _ _ => True

/-- The invariant that a compiled hard regex has at least one group: the
wrapper built by new_with_size_limit (src/lib.rs lines 210-218) always adds
the synthetic whole-match group, so info.end_group is at least 1. -/
def Regex.nGroupsOk : Regex → Prop
  | .Wrap _ _ _ => True
  | .Impl _ n_groups _ => 1 ≤ n_groups

theorem except_map_isOk {ε α β : Type} (f : α → β) (x : Except ε α) :
    (x.map f).isOk = x.isOk := by
  cases x <;> rfl

/-- C4: captures_from_pos with pos = 0 agrees with captures: the same Ok/Err
outcome, the same Some/None, and the very same captures value (hence get(i)
agrees for every group index i). -/
theorem captures_from_pos_zero_eq_captures (re : Regex) (text : List Nat) :
    re.captures_from_pos text 0 = re.captures text := by
  cases re with
  | Wrap inner inner1 original => cases inner1 <;> rfl
  | Impl prog n_groups original => rfl

/-- C2: at the concrete captures produced for the in-repo test captures_fancy
(tests/captures.rs lines 6-12; pattern \s*(\w+)(?=\.) on "foo bar.", saves
[3,7,4,7], two groups), Captures::get(2) passes the bounds check
`i >= saves.len()` (2 < 4) and indexes saves[4], out of bounds: the code
panics where the test asserts get(2).is_none(). -/
theorem captures_get_out_of_bounds_panics :
    Captures.len (Captures.Impl [102, 111, 111, 32, 98, 97, 114, 46] [3, 7, 4, 7]) = 2 ∧
    Captures.get (Captures.Impl [102, 111, 111, 32, 98, 97, 114, 46] [3, 7, 4, 7]) 2 =
      Except.error () := by
  constructor <;> rfl

/-- C7 counterexample: setting case_insensitive to true and then back to false
does not leave the pattern unchanged at build time: has_flags stays set, so
build still rewrites the pattern, to "(?)a" for pattern "a". -/
theorem build_after_flag_reset_rewrites :
    RegexBuilder.buildPattern
        (((RegexBuilder.new ['a']).set_case_insensitive true).set_case_insensitive false) =
      "(?)a".toList ∧
    "(?)a".toList ≠ ['a'] := by
  constructor <;> decide

/-- C7 amended: build rewrites the pattern to (?flags)pattern, flags the
concatenation of i, m, s, u in that order for each flag currently true,
exactly when has_flags is set; has_flags is raised by any setter called with
true and is never cleared, so set-true-then-false still rewrites (with an
empty flags string). -/
theorem builder_rewrites_iff_has_flags (p : List Char) :
    RegexBuilder.buildPattern (RegexBuilder.new p) = p ∧
    RegexBuilder.buildPattern ((RegexBuilder.new p).set_case_insensitive true) =
      "(?i)".toList ++ p ∧
    RegexBuilder.buildPattern ((RegexBuilder.new p).set_multi_line true) =
      "(?m)".toList ++ p ∧
    RegexBuilder.buildPattern ((RegexBuilder.new p).set_dot_matches_new_line true) =
      "(?s)".toList ++ p ∧
    RegexBuilder.buildPattern ((RegexBuilder.new p).set_unicode true) =
      "(?u)".toList ++ p ∧
    RegexBuilder.buildPattern
        ((((((RegexBuilder.new p).set_case_insensitive true).set_multi_line true)
          ).set_dot_matches_new_line true).set_unicode true) =
      "(?imsu)".toList ++ p ∧
    RegexBuilder.buildPattern
        (((RegexBuilder.new p).set_case_insensitive true).set_case_insensitive false) =
      "(?)".toList ++ p ∧
    ∀ b : RegexBuilder,
      (b.set_case_insensitive true).has_flags = true ∧
      (b.set_case_insensitive false).has_flags = b.has_flags ∧
      (b.set_multi_line true).has_flags = true ∧
      (b.set_multi_line false).has_flags = b.has_flags ∧
      (b.set_dot_matches_new_line true).has_flags = true ∧
      (b.set_dot_matches_new_line false).has_flags = b.has_flags ∧
      (b.set_unicode true).has_flags = true ∧
      (b.set_unicode false).has_flags = b.has_flags := by
  exact ⟨rfl, rfl, rfl, rfl, rfl, rfl, rfl,
    fun b => ⟨rfl, rfl, rfl, rfl, rfl, rfl, rfl, rfl⟩⟩

/-- C6 counterexample: the Error enum of src/lib.rs, the error type that the
crate's Result alias (and so every match call) actually returns, does not
have two distinct run-time variants; BacktrackLimitExceeded is not among its
constructors. -/
theorem lib_error_runtime_not_two :
    ¬ ∃ e1 e2 : Error, e1 ≠ e2 ∧ e1.isRuntime = true ∧ e2.isRuntime = true := by
  rintro ⟨e1, e2, hne, h1, h2⟩
  cases e1 <;> simp [Error.isRuntime] at h1
  cases e2 <;> simp [Error.isRuntime] at h2
  exact hne rfl

/-- C6 amended: the run-time errors of the Error type returned by match calls
(src/lib.rs lines 112-133) are exactly one variant, StackOverflow; both
StackOverflow and BacktrackLimitExceeded exist only in the separate enum of
src/error.rs, which lib.rs never declares as a module. -/
theorem lib_error_single_runtime_variant :
    (∀ e : Error, e.isRuntime = decide (e = Error.StackOverflow)) ∧
    Error.isRuntime Error.StackOverflow = true ∧
    ErrorsRs.Error.isRuntime ErrorsRs.Error.StackOverflow = true ∧
    ErrorsRs.Error.isRuntime ErrorsRs.Error.BacktrackLimitExceeded = true := by
  refine ⟨fun e => ?_, rfl, rfl, rfl⟩
  cases e <;> rfl

/-- C8: on the easy (Wrap) engine, is_match, find, captures and
captures_from_pos always return Ok, for every input text and position; on the
hard (Impl) path each match call returns Ok exactly when the VM run does, so
run-time errors can arise only there. -/
theorem easy_path_never_runtime_errors (inner : RRegex) (inner1 : Option RRegex)
    (original : List Char) (text : List Nat) (pos : Nat)
    (prog : Prog) (n_groups : Nat) (orig2 : List Char) :
    (Regex.is_match (.Wrap inner inner1 original) text).isOk = true ∧
    (Regex.find (.Wrap inner inner1 original) text).isOk = true ∧
    (Regex.captures (.Wrap inner inner1 original) text).isOk = true ∧
    (Regex.captures_from_pos (.Wrap inner inner1 original) text pos).isOk = true ∧
    (Regex.is_match (.Impl prog n_groups orig2) text).isOk = (prog.run text 0 0).isOk ∧
    (Regex.find (.Impl prog n_groups orig2) text).isOk = (prog.run text 0 0).isOk ∧
    (Regex.captures (.Impl prog n_groups orig2) text).isOk = (prog.run text 0 0).isOk ∧
    (Regex.captures_from_pos (.Impl prog n_groups orig2) text pos).isOk =
      (prog.run text pos 0).isOk := by
  refine ⟨rfl, rfl, rfl, ?_, except_map_isOk _ _, except_map_isOk _ _,
    except_map_isOk _ _, except_map_isOk _ _⟩
  cases inner1 <;> cases pos <;> rfl

/-- C5: for every compiled regex and text on which no run-time error occurs,
is_match returns true exactly when find returns Some, exactly when captures
returns Some.  On the Wrap path this rests on the linear engine's contract
that group 0 is present in reported captures; on the Impl path all three
calls post-process the same vm::run result. -/
theorem is_match_find_captures_agree (re : Regex) (text : List Nat)
    (hwf : re.wf) (b : Bool) (hm : re.is_match text = .ok b) :
    (∃ mo, re.find text = .ok mo ∧ mo.isSome = b) ∧
    (∃ co, re.captures text = .ok co ∧ co.isSome = b) := by
  cases re with
  | Wrap inner inner1 original =>
    have hm' : inner.ris_match text = b := by
      simpa [Regex.is_match] using hm
    cases hg : inner.rcaptures text with
    | none =>
      have hb : b = false := by
        rw [← hm']; simp [RRegex.ris_match, hg]
      subst hb
      exact ⟨⟨none, by simp [Regex.find, RRegex.rfind, hg], rfl⟩,
             ⟨none, by simp [Regex.captures, hg], rfl⟩⟩
    | some g =>
      have hb : b = true := by
        rw [← hm']; simp [RRegex.ris_match, hg]
      subst hb
      have h0 : (g.getD 0 none).isSome = true := hwf text g hg
      obtain ⟨⟨s, e⟩, hp⟩ := Option.isSome_iff_exists.mp h0
      have hf : (Regex.Wrap inner inner1 original).find text =
          .ok (some (Match.new text s e)) := by
        show Except.ok ((inner.rfind text).map fun q => Match.new text q.1 q.2) = _
        rw [RRegex.rfind, hg]
        show Except.ok ((g.getD 0 none).map fun q => Match.new text q.1 q.2) = _
        rw [hp]
        rfl
      exact ⟨⟨some (Match.new text s e), hf, rfl⟩,
             ⟨some (Captures.Wrap text g 0 0), by simp [Regex.captures, hg], rfl⟩⟩
  | Impl prog n_groups original =>
    cases hr : prog.run text 0 0 with
    | error e =>
      rw [Regex.is_match] at hm
      rw [hr] at hm
      exact absurd hm (by simp [Except.map])
    | ok res =>
      have hb : res.isSome = b := by
        rw [Regex.is_match, hr] at hm
        simpa [Except.map] using hm
      cases res with
      | none =>
        exact ⟨⟨none, by simp [Regex.find, hr, Except.map], by simpa using hb⟩,
               ⟨none, by simp [Regex.captures, hr, Except.map], by simpa using hb⟩⟩
      | some saves =>
        exact ⟨⟨some (Match.new text (saves.getD 0 0) (saves.getD 1 0)),
                 by simp [Regex.find, hr, Except.map], by simpa using hb⟩,
               ⟨some (Captures.Impl text (saves.take (n_groups * 2))),
                 by simp [Regex.captures, hr, Except.map], by simpa using hb⟩⟩

/-- An easy regex over a one-shot linear engine reporting an empty match at
offset 0, used to witness the agreement theorems at a concrete input. -/
def emptyMatchEngine : RRegex := ⟨fun _ => some [some (0, 0)]⟩

theorem is_match_find_captures_agree_witness :
    (∃ mo, (Regex.Wrap emptyMatchEngine none []).find [] = .ok mo ∧ mo.isSome = true) ∧
    (∃ co, (Regex.Wrap emptyMatchEngine none []).captures [] = .ok co ∧ co.isSome = true) :=
  is_match_find_captures_agree (.Wrap emptyMatchEngine none []) []
    (fun t g hg => by
      simp only [emptyMatchEngine] at hg
      cases hg
      rfl)
    true rfl

/-- C9: whenever captures returns Some and its group 0 is Some m0, find
returns Some with the same start and end.  The Impl case needs the invariant
that the compiled program has at least one group (the synthetic whole-match
group the constructor always adds). -/
theorem captures_get_zero_eq_find_span (re : Regex) (text : List Nat)
    (hn : re.nGroupsOk) (caps : Captures) (m0 : Match)
    (hc : re.captures text = .ok (some caps))
    (h0 : caps.get 0 = .ok (some m0)) :
    ∃ m, re.find text = .ok (some m) ∧ m.start = m0.start ∧ m.«end» = m0.«end» := by
  cases re with
  | Wrap inner inner1 original =>
    have hc' : (inner.rcaptures text).map (fun caps => Captures.Wrap text caps 0 0) =
        some caps := by
      simpa [Regex.captures] using hc
    obtain ⟨g, hg, hcaps⟩ := Option.map_eq_some'.mp hc'
    subst hcaps
    have h0' : (g.getD 0 none).map
        (fun m => ({ text := text, start := m.1 + 0, «end» := m.2 + 0 } : Match)) =
        some m0 := by
      simpa [Captures.get] using h0
    obtain ⟨⟨s, e⟩, hm, hm0⟩ := Option.map_eq_some'.mp h0'
    refine ⟨Match.new text s e, ?_, ?_, ?_⟩
    · show Except.ok ((inner.rfind text).map fun q => Match.new text q.1 q.2) = _
      rw [RRegex.rfind, hg]
      show Except.ok ((g.getD 0 none).map fun q => Match.new text q.1 q.2) = _
      rw [hm]
      rfl
    · rw [← hm0]
      rfl
    · rw [← hm0]
      rfl
  | Impl prog n_groups original =>
    cases hr : prog.run text 0 0 with
    | error e =>
      rw [Regex.captures, hr] at hc
      exact absurd hc (by simp [Except.map])
    | ok res =>
      have hc' : res.map (fun saves => Captures.Impl text (saves.take (n_groups * 2))) =
          some caps := by
        rw [Regex.captures, hr] at hc
        simpa [Except.map] using hc
      obtain ⟨saves, hsaves, hcaps⟩ := Option.map_eq_some'.mp hc'
      subst hcaps
      subst hsaves
      rw [Captures.get] at h0
      split at h0
      · exact absurd h0 (by simp)
      · split at h0
        · exact absurd h0 (by simp)
        · rename_i lo hlo
          split at h0
          · exact absurd h0 (by simp)
          · split at h0
            · exact absurd h0 (by simp)
            · rename_i hi hhi
              have hm0 : m0 = { text := text, start := lo, «end» := hi } := by
                have := Except.ok.inj h0
                exact (Option.some.inj this).symm
              have hlt0 : 0 < n_groups * 2 := by
                simp only [Regex.nGroupsOk] at hn
                omega
              have hlt1 : 1 < n_groups * 2 := by
                simp only [Regex.nGroupsOk] at hn
                omega
              have hs0 : saves[0]? = some lo := by
                rw [← hlo, List.getElem?_take]
                simp [hlt0]
              have hs1 : saves[1]? = some hi := by
                rw [← hhi, List.getElem?_take]
                simp [hlt1]
              refine ⟨Match.new text (saves.getD 0 0) (saves.getD 1 0), ?_, ?_, ?_⟩
              · simp [Regex.find, hr, Except.map]
              · rw [hm0]
                simp [Match.new, List.getD_eq_getElem?_getD, hs0]
              · rw [hm0]
                simp [Match.new, List.getD_eq_getElem?_getD, hs1]

theorem captures_get_zero_eq_find_span_witness :
    ∃ m, (Regex.Impl ⟨fun _ _ _ => .ok (some [2, 5])⟩ 1 []).find [] = .ok (some m) ∧
      m.start = 2 ∧ m.«end» = 5 := by
  have h := captures_get_zero_eq_find_span
    (.Impl ⟨fun _ _ _ => .ok (some [2, 5])⟩ 1 []) []
    (by constructor)
    (Captures.Impl [] [2, 5]) { text := [], start := 2, «end» := 5 }
    (by rfl)
    (by rfl)
  obtain ⟨m, hm, h1, h2⟩ := h
  exact ⟨m, hm, h1, h2⟩

/-- C1 counterexample: at a concrete easy engine (the linear engine reporting
captures [some (0,2), some (0,1)], as for the unwrapped pattern (\d)\d on
"21 33"), the Captures value built by Regex::captures carries
enclosing_groups = 0, so the user-visible group 1 is the linear engine's
group 1 (span (0,1)), not its group 2 (absent): the claimed i ↦ i+1
correspondence is false on the captures path. -/
theorem easy_captures_group_shift_refuted :
    Regex.captures
        (Regex.Wrap ⟨fun _ => some [some (0, 2), some (0, 1)]⟩ none [])
        [50, 49, 32, 51, 51] =
      Except.ok (some
        (Captures.Wrap [50, 49, 32, 51, 51] [some (0, 2), some (0, 1)] 0 0)) ∧
    Captures.get
        (Captures.Wrap [50, 49, 32, 51, 51] [some (0, 2), some (0, 1)] 0 0) 1 =
      Except.ok (some { text := [50, 49, 32, 51, 51], start := 0, «end» := 1 }) ∧
    ([some (0, 2), some (0, 1)] : List (Option (Nat × Nat))).getD (1 + 1) none =
      none := by
  exact ⟨rfl, rfl, rfl⟩

/-- C1 amended: on the easy path, new_with_size_limit hands the serialized
expression re_cooked to the linear-engine compiler unmodified for `inner`
(the linear engine's own unanchored search supplies arbitrary start
positions), and only the look-left variant `inner1` gets the wrapped pattern
"^(?s:.)+?(" ++ re_cooked ++ ")", whose group 1 captures the match span; on
the captures path the user-visible group i is the linear engine's group i
(enclosing_groups = 0), the i+1 shift applying only on the inner1 path of
captures_from_pos. -/
theorem easy_engine_construction (raw_e : Expr) (looks_left : Bool)
    (re_cooked : List Char) (hcook : Expr.to_str raw_e 0 = some re_cooked) :
    newEasyPats raw_e looks_left =
      some (re_cooked,
        if looks_left then some ("^(?s:.)+?(".toList ++ re_cooked ++ [')'])
        else none) ∧
    ∀ (inner : RRegex) (inner1 : Option RRegex) (original : List Char)
      (text : List Nat) (g : List (Option (Nat × Nat))),
      inner.rcaptures text = some g →
      ∃ caps, Regex.captures (.Wrap inner inner1 original) text = .ok (some caps) ∧
        caps.len = g.length ∧
        ∀ i, caps.get i =
          .ok ((g.getD i none).map fun m =>
            { text := text, start := m.1, «end» := m.2 }) := by
  constructor
  · rw [newEasyPats, hcook]
    rfl
  · intro inner inner1 original text g hg
    refine ⟨Captures.Wrap text g 0 0, by simp [Regex.captures, hg], rfl, ?_⟩
    intro i
    show Except.ok ((g.getD (i + 0) none).map fun m =>
      ({ text := text, start := m.1 + 0, «end» := m.2 + 0 } : Match)) = _
    rfl

theorem easy_engine_construction_witness :
    newEasyPats (Expr.Literal ['a'] false) true =
      some (['a'], some ("^(?s:.)+?(".toList ++ ['a'] ++ [')'])) ∧
    ∃ caps,
      Regex.captures (.Wrap ⟨fun _ => some [some (0, 1)]⟩ none ['a']) [97] =
        .ok (some caps) ∧
      caps.len = 1 ∧
      ∀ i, caps.get i =
        .ok ((([some (0, 1)] : List (Option (Nat × Nat))).getD i none).map fun m =>
          { text := [97], start := m.1, «end» := m.2 }) := by
  have hcook : Expr.to_str (Expr.Literal ['a'] false) 0 = some ['a'] := by
    simp [Expr.to_str, pushQuoted]
  have h := easy_engine_construction (Expr.Literal ['a'] false) true ['a'] hcook
  exact ⟨h.1, h.2 ⟨fun _ => some [some (0, 1)]⟩ none ['a'] [97] [some (0, 1)] rfl⟩

theorem isEmptyExpr_eq_true {e : Expr} (h : isEmptyExpr e = true) : e = .Empty := by
  cases e <;> simp [isEmptyExpr] at h ⊢

theorem noHardList_filter_not_empty (l : List Expr) :
    noHardList (l.filter fun c => !isEmptyExpr c) = noHardList l := by
  induction l with
  | nil => rfl
  | cons a t ih =>
    rw [List.filter_cons]
    by_cases he : isEmptyExpr a = true
    · have ha : a = .Empty := isEmptyExpr_eq_true he
      subst ha
      have hco : (!isEmptyExpr Expr.Empty) = false := rfl
      have hne : Expr.noHard Expr.Empty = true := by
        simp [Expr.noHard]
      rw [hco]
      simp [noHardList, hne, ih]
    · have he' : isEmptyExpr a = false := by
        simpa using he
      simp [he', noHardList, ih]

mutual

theorem to_str_isSome_eq_noHard (e : Expr) (p : Nat) :
    (Expr.to_str e p).isSome = Expr.noHard e := by
  cases e with
  | Empty => simp [Expr.to_str, Expr.noHard]
  | Any newline => simp [Expr.to_str, Expr.noHard]
  | StartText => simp [Expr.to_str, Expr.noHard]
  | EndText => simp [Expr.to_str, Expr.noHard]
  | StartLine => simp [Expr.to_str, Expr.noHard]
  | EndLine => simp [Expr.to_str, Expr.noHard]
  | Literal val casei => simp [Expr.to_str, Expr.noHard]
  | Delegate inner size casei => simp [Expr.to_str, Expr.noHard]
  | Concat children =>
    have h := toStrList_isSome_eq_noHardList children 2
    simp [Expr.to_str, Expr.noHard, Option.isSome_map', h]
  | Alt children =>
    have h := toStrList_isSome_eq_noHardList
      (children.filter fun c => !isEmptyExpr c) 1
    simp [Expr.to_str, Expr.noHard, Option.isSome_map', h,
      noHardList_filter_not_empty children]
  | Group child =>
    have h := to_str_isSome_eq_noHard child 0
    simp [Expr.to_str, Expr.noHard, Option.isSome_map', h]
  | Repeat child lo hi greedy =>
    have h := to_str_isSome_eq_noHard child 3
    simp [Expr.to_str, Expr.noHard, Option.isSome_map', h]
  | LookAround child kind => simp [Expr.to_str, Expr.noHard]
  | Backref group => simp [Expr.to_str, Expr.noHard]
  | AtomicGroup child => simp [Expr.to_str, Expr.noHard]
termination_by sizeOf e
decreasing_by
  all_goals simp_wf
  all_goals try omega
  · have h := sizeOf_filter_le (fun c => !isEmptyExpr c) children
    omega

theorem toStrList_isSome_eq_noHardList (l : List Expr) (p : Nat) :
    (toStrList l p).isSome = noHardList l := by
  cases l with
  | nil => simp [toStrList, noHardList]
  | cons c rest =>
    have h1 := to_str_isSome_eq_noHard c p
    have h2 := toStrList_isSome_eq_noHardList rest p
    rw [toStrList, noHardList, ← h1, ← h2]
    cases Expr.to_str c p <;> cases toStrList rest p <;> simp
termination_by sizeOf l
decreasing_by
  all_goals simp_wf <;> omega

end

/-- C10: Expr::to_str is total exactly on the expressions built only from
Empty, Any, StartText, EndText, StartLine, EndLine, Literal, Concat, Alt,
Group, Repeat and Delegate; for any expression containing a Backref,
LookAround or AtomicGroup node it panics (modelled as none), so serialization
back to a pattern string is only defined for non-hard expressions. -/
theorem to_str_total_iff_no_hard (e : Expr) (precedence : Nat) :
    (Expr.to_str e precedence).isSome = Expr.noHard e :=
  to_str_isSome_eq_noHard e precedence

theorem contByte_eq_false_iff (b : Nat) :
    contByte b = false ↔ (b < 128 ∨ 192 ≤ b) := by
  simp [contByte]
  omega

theorem contByte_eq_true_iff (b : Nat) :
    contByte b = true ↔ (128 ≤ b ∧ b < 192) := by
  simp [contByte]

theorem prevCodepointIx_of_cont (s : List Nat) (base t : Nat)
    (hbase : contByte (s.getD base 0) = false)
    (hcont : ∀ m, m < t → contByte (s.getD (base + 1 + m) 0) = true) :
    prevCodepointIx s (base + 1 + t) = base := by
  induction t with
  | zero =>
    have hb : s.getD base 0 < 0x80 ∨ 0xc0 ≤ s.getD base 0 :=
      (contByte_eq_false_iff _).mp hbase
    show prevCodepointIx s (base + 1) = base
    show (if s.getD base 0 < 0x80 ∨ 0xc0 ≤ s.getD base 0 then base
      else prevCodepointIx s base) = base
    rw [if_pos hb]
  | succ t ih =>
    have hcur : 128 ≤ s.getD (base + 1 + t) 0 ∧ s.getD (base + 1 + t) 0 < 192 :=
      (contByte_eq_true_iff _).mp (hcont t (by omega))
    have hnb : ¬ (s.getD (base + 1 + t) 0 < 0x80 ∨ 0xc0 ≤ s.getD (base + 1 + t) 0) := by
      omega
    have heq : base + 1 + (t + 1) = (base + 1 + t) + 1 := by omega
    rw [heq]
    show (if s.getD (base + 1 + t) 0 < 0x80 ∨ 0xc0 ≤ s.getD (base + 1 + t) 0
      then base + 1 + t else prevCodepointIx s (base + 1 + t)) = base
    rw [if_neg hnb]
    exact ih fun m hm => hcont m (by omega)

theorem prevCodepointIx_boundary (chars : List (List Nat)) (k : Nat)
    (hv : chars.all validCharBytes = true)
    (hk1 : 1 ≤ k) (hk : k ≤ chars.length) :
    prevCodepointIx chars.flatten ((chars.take k).flatten.length) =
      (chars.take (k - 1)).flatten.length ∧
    1 ≤ (chars.take k).flatten.length := by
  obtain ⟨j, rfl⟩ : ∃ j, k = j + 1 := ⟨k - 1, by omega⟩
  simp only [Nat.add_sub_cancel]
  have hklt : j < chars.length := by omega
  have hcmem : chars.getD j [] ∈ chars := by
    rw [List.getD_eq_getElem chars [] hklt]
    exact List.getElem_mem hklt
  have hcv : validCharBytes (chars.getD j []) = true :=
    List.all_eq_true.mp hv _ hcmem
  have htk : chars.take (j + 1) = chars.take j ++ [chars.getD j []] := by
    rw [List.take_succ, List.getElem?_eq_getElem hklt,
      List.getD_eq_getElem chars [] hklt]
    rfl
  have htext : chars.flatten =
      (chars.take j).flatten ++
        (chars.getD j [] ++ (chars.drop (j + 1)).flatten) := by
    conv_lhs => rw [← List.take_append_drop (j + 1) chars]
    rw [List.flatten_append, htk, List.flatten_append]
    simp [List.append_assoc]
  obtain ⟨b, tl, hc⟩ : ∃ b tl, chars.getD j [] = b :: tl := by
    cases hcc : chars.getD j [] with
    | nil =>
      rw [hcc] at hcv
      simp [validCharBytes] at hcv
    | cons b tl => exact ⟨b, tl, rfl⟩
  have hcv' : contByte b = false ∧ tl.all contByte = true := by
    rw [hc] at hcv
    simpa [validCharBytes] using hcv
  have hb_base : chars.flatten.getD (chars.take j).flatten.length 0 = b := by
    rw [htext, hc, List.getD_append_right _ _ _ _ (Nat.le_refl _), Nat.sub_self]
    rfl
  have hb_cont : ∀ m, m < tl.length →
      contByte (chars.flatten.getD ((chars.take j).flatten.length + 1 + m) 0) = true := by
    intro m hm
    rw [htext, hc, List.getD_append_right _ _ _ _ (by omega)]
    have hsub : (chars.take j).flatten.length + 1 + m -
        (chars.take j).flatten.length = m + 1 := by omega
    rw [hsub, List.cons_append, List.getD_cons_succ,
      List.getD_append _ _ _ _ hm, List.getD_eq_getElem tl 0 hm]
    exact List.all_eq_true.mp hcv'.2 _ (List.getElem_mem hm)
  have hlen2 : (chars.take (j + 1)).flatten.length =
      (chars.take j).flatten.length + 1 + tl.length := by
    rw [htk, hc, List.flatten_append]
    simp
    omega
  constructor
  · rw [hlen2]
    exact prevCodepointIx_of_cont _ _ _ (by rw [hb_base]; exact hcv'.1) hb_cont
  · rw [hlen2]
    omega

/-- C3: on the easy engine with a look-left variant, captures_from_pos at a
code-point boundary pos > 0 (the boundary after the k-th code point of a
valid UTF-8 text) steps back exactly one code point via prev_codepoint_ix,
searches inner1 on the text from that earlier index ix, and reports the
linear engine's group i+1 as user group i with offsets shifted by ix back
into whole-text coordinates (enclosing_groups = 1); with pos = 0, or when no
inner1 exists, it searches inner with no group shift. -/
theorem from_pos_look_left (chars : List (List Nat)) (k pos ix : Nat)
    (hv : chars.all validCharBytes = true)
    (hk1 : 1 ≤ k) (hk : k ≤ chars.length)
    (hpos : pos = (chars.take k).flatten.length)
    (hix : ix = (chars.take (k - 1)).flatten.length)
    (inner r1 : RRegex) (original : List Char) :
    prevCodepointIx chars.flatten pos = ix ∧
    Regex.captures_from_pos (.Wrap inner (some r1) original) chars.flatten pos =
      .ok ((r1.rcaptures (chars.flatten.drop ix)).map fun caps =>
        Captures.Wrap chars.flatten caps ix 1) ∧
    (∀ caps i, (Captures.Wrap chars.flatten caps ix 1).get i =
      .ok ((caps.getD (i + 1) none).map fun m =>
        { text := chars.flatten, start := m.1 + ix, «end» := m.2 + ix })) ∧
    Regex.captures_from_pos (.Wrap inner (some r1) original) chars.flatten 0 =
      .ok ((inner.rcaptures chars.flatten).map fun caps =>
        Captures.Wrap chars.flatten caps 0 0) ∧
    Regex.captures_from_pos (.Wrap inner none original) chars.flatten pos =
      .ok ((inner.rcaptures (chars.flatten.drop pos)).map fun caps =>
        Captures.Wrap chars.flatten caps pos 0) := by
  obtain ⟨hprev, hpos1⟩ := prevCodepointIx_boundary chars k hv hk1 hk
  have h1 : prevCodepointIx chars.flatten pos = ix := by
    rw [hpos, hix]
    exact hprev
  refine ⟨h1, ?_, fun caps i => rfl, rfl, ?_⟩
  · obtain ⟨p, hp⟩ : ∃ p, pos = p + 1 := ⟨pos - 1, by omega⟩
    rw [hp] at h1 ⊢
    show Except.ok
        ((r1.rcaptures (chars.flatten.drop (prevCodepointIx chars.flatten (p + 1)))).map
          fun caps =>
            Captures.Wrap chars.flatten caps (prevCodepointIx chars.flatten (p + 1)) 1) = _
    rw [h1]
  · cases pos with
    | zero => rfl
    | succ p => rfl

/-- A one-shot linear engine used to witness the look-left dispatch at the
concrete scenario of the in-repo test captures_from_pos_looking_left
(tests/captures.rs lines 58-70): text ".x", pos 1. -/
def lookLeftEngine : RRegex := ⟨fun _ => some [some (0, 2), some (1, 2), some (1, 2)]⟩

theorem from_pos_look_left_witness :
    prevCodepointIx ([[46], [120]] : List (List Nat)).flatten 1 = 0 ∧
    Regex.captures_from_pos (.Wrap ⟨fun _ => none⟩ (some lookLeftEngine) [])
        ([[46], [120]] : List (List Nat)).flatten 1 =
      .ok ((lookLeftEngine.rcaptures (([[46], [120]] : List (List Nat)).flatten.drop 0)).map
        fun caps => Captures.Wrap ([[46], [120]] : List (List Nat)).flatten caps 0 1) ∧
    (∀ caps i,
      (Captures.Wrap ([[46], [120]] : List (List Nat)).flatten caps 0 1).get i =
        .ok ((caps.getD (i + 1) none).map fun m =>
          { text := ([[46], [120]] : List (List Nat)).flatten,
            start := m.1 + 0, «end» := m.2 + 0 })) ∧
    Regex.captures_from_pos (.Wrap ⟨fun _ => none⟩ (some lookLeftEngine) [])
        ([[46], [120]] : List (List Nat)).flatten 0 =
      .ok (((⟨fun _ => none⟩ : RRegex).rcaptures ([[46], [120]] : List (List Nat)).flatten).map
        fun caps => Captures.Wrap ([[46], [120]] : List (List Nat)).flatten caps 0 0) ∧
    Regex.captures_from_pos (.Wrap ⟨fun _ => none⟩ none [])
        ([[46], [120]] : List (List Nat)).flatten 1 =
      .ok (((⟨fun _ => none⟩ : RRegex).rcaptures
            (([[46], [120]] : List (List Nat)).flatten.drop 1)).map
        fun caps => Captures.Wrap ([[46], [120]] : List (List Nat)).flatten caps 1 0) :=
  from_pos_look_left [[46], [120]] 1 1 0 (by decide) (by decide) (by decide)
    (by decide) (by decide) ⟨fun _ => none⟩ lookLeftEngine []

end FancyRegex
